import Mathlib

/-!
Shallow embedding of the voice-library subsystem of the ice-cream-social
repository (src/scripts/voice_library.py and the transcript aligner of
src/scripts/speaker_diarization.py), together with theorems settling the
frozen claims about it.

Modelling conventions, chosen once and used throughout:
* Python floats are modelled as real numbers; numpy 1-d arrays as `List ℝ`.
* Dates are modelled by their proleptic-Gregorian ordinals (`ℤ`), which is
  exactly what the Python code reduces them to via `date.toordinal`; a date
  string that fails to parse is modelled as `none`, so a raw date value is an
  `Option ℤ`.
* Python dicts keyed by strings are modelled as association lists
  (`List (String × _)`) read through a first-match lookup, or, where only the
  per-key content matters, as functions `String → Option _`.
* A Python function that can only fail by raising is modelled totally on the
  arguments for which the source succeeds; external collaborators (the
  neural embedding extractor) are passed in as function arguments.
-/

noncomputable section

/-! ## Elementwise vector arithmetic (numpy broadcasting on equal shapes) -/

/-- Elementwise sum of two vectors, `numpy`'s `a + b` for equal shapes
(`zipWith` truncates to the shorter operand where numpy would raise). -/
def vecAdd (xs ys : List ℝ) : List ℝ := List.zipWith (fun a b => a + b) xs ys

/-- Sum of a list of vectors, as produced by repeated elementwise addition. -/
def vecSum : List (List ℝ) → List ℝ
  | [] => []
  | [v] => v
  | v :: w :: rest => vecAdd v (vecSum (w :: rest))

/-- Arithmetic mean of a list of vectors: `np.mean(vs, axis=0)`. -/
def meanVec (vs : List (List ℝ)) : List ℝ :=
  (vecSum vs).map (fun x => x / (vs.length : ℝ))

/-- Dot product, `np.dot` on two 1-d arrays of equal length. -/
def dotList (xs ys : List ℝ) : ℝ := (List.zipWith (fun a b => a * b) xs ys).sum

/-- Euclidean norm, `np.linalg.norm`. -/
def norm2 (xs : List ℝ) : ℝ := Real.sqrt (dotList xs xs)

/-- Cosine similarity as written in `VoiceLibrary.identify_speaker`:
`np.dot(embedding, known) / (np.linalg.norm(embedding) * np.linalg.norm(known))`. -/
def cosineSim (q c : List ℝ) : ℝ := dotList q c / (norm2 q * norm2 c)

/-- Weighted running mean used by `VoiceLibrary.add_speaker`:
`(existing * sample_count + new_embedding) / (sample_count + 1)`. -/
def runningMean (old : List ℝ) (n : ℕ) (newv : List ℝ) : List ℝ :=
  (vecAdd (old.map (fun x => x * (n : ℝ))) newv).map (fun x => x / ((n : ℝ) + 1))

/-- Python slice `l[-n:]`, the last `n` elements. -/
def lastN {α : Type} (n : ℕ) (l : List α) : List α := l.drop (l.length - n)

/-- First whitespace word of a name, `name.split()[0] if name.split() else name`
(the `rebuild` code guards the empty case exactly this way; `add_speaker`
would raise on an all-whitespace name, which we do not model). -/
def firstWord (s : String) : String := ((s.splitOn " ").filter (fun w => w ≠ "")).headD s

/-- Final path component, `Path(p).name`. -/
def basename (s : String) : String := (s.splitOn "/").getLastD s

/-! ## Dates and temporal weighting (`VoiceLibrary._mean_date`, `_temporal_weight`) -/

/-- Mean of the parseable dates of a history, `VoiceLibrary._mean_date`:
unparseable entries are dropped, the mean ordinal is the floor integer
division `sum // len`, `none` when nothing parses. -/
def mean_date (dates : List (Option ℤ)) : Option ℤ :=
  let parsed := dates.filterMap id
  if parsed.isEmpty then none
  else some (Int.fdiv parsed.sum (parsed.length : ℤ))

/-- Temporal weight of `VoiceLibrary._temporal_weight`: `1.0` when the target
date is absent or unparseable or the sample-date history is empty or fully
unparseable, otherwise `0.5 + 0.5 * exp(-|days| / 365)` against the mean
sample date. -/
def temporal_weight (sample_dates : List (Option ℤ)) (target_date : Option ℤ) : ℝ :=
  match target_date with
  | none => 1
  | some t =>
    if sample_dates.isEmpty then 1
    else
      match mean_date sample_dates with
      | none => 1
      | some avg => 0.5 + 0.5 * Real.exp (-((|t - avg| : ℤ) : ℝ) / 365)

/-! ## The in-memory speaker library (`VoiceLibrary.embeddings`) -/

/-- One value of the `embeddings` dict of `VoiceLibrary`. -/
structure SpeakerData where
  embedding : List ℝ
  short_name : String
  sample_file : String
  sample_count : ℕ
  sample_dates : List (Option ℤ)

/-- Python truthiness fallback `short_name or name.split()[0]` of the fresh
branch of `add_speaker`: an absent or empty short name falls back to the
first word of the speaker name. -/
def resolve_short_name (short_name : Option String) (name : String) : String :=
  match short_name with
  | some s => if s = "" then firstWord name else s
  | none => firstWord name

/-- First-match lookup in an association list, the read of a Python dict. -/
def alist_find {α : Type} (l : List (String × α)) (k : String) : Option α :=
  (l.find? (fun e => e.1 = k)).map (fun e => e.2)

/-- Write of a Python dict: replace in place when the key exists (dict order
is preserved), otherwise append at the end. -/
def alist_set {α : Type} (l : List (String × α)) (k : String) (v : α) : List (String × α) :=
  if l.any (fun e => e.1 = k) then l.map (fun e => if e.1 = k then (k, v) else e)
  else l ++ [(k, v)]

/-- The in-memory update performed by `VoiceLibrary.add_speaker` once the
embedding has been extracted: a same-shape sample folds into the running
mean, a shape mismatch or `update_existing=False` or a new name restarts the
entry with the new sample as sole member. The returned flag is the function
result, `True` on this (non-raising) path. -/
def add_speaker (lib : List (String × SpeakerData)) (name : String) (new_embedding : List ℝ)
    (short_name : Option String) (audio_file_name : String) (sample_date : Option ℤ)
    (update_existing : Bool) : Bool × List (String × SpeakerData) :=
  match alist_find lib name with
  | some d =>
    if update_existing ∧ d.embedding.length = new_embedding.length then
      let n := d.sample_count
      (true, alist_set lib name
        { d with
          embedding := runningMean d.embedding n new_embedding
          sample_count := n + 1
          sample_dates :=
            match sample_date with
            | some dt => lastN 100 (d.sample_dates ++ [some dt])
            | none => d.sample_dates })
    else
      (true, alist_set lib name
        { embedding := new_embedding
          short_name := resolve_short_name short_name name
          sample_file := audio_file_name
          sample_count := 1
          sample_dates := match sample_date with | some dt => [some dt] | none => [] })
  | none =>
    (true, alist_set lib name
      { embedding := new_embedding
        short_name := resolve_short_name short_name name
        sample_file := audio_file_name
        sample_count := 1
        sample_dates := match sample_date with | some dt => [some dt] | none => [] })

/-! ## Identification (`VoiceLibrary.identify_speaker`) -/

/-- Temporally weighted score of one candidate against a query embedding. -/
def weighted_score (embedding : List ℝ) (target_date : Option ℤ) (d : SpeakerData) : ℝ :=
  cosineSim embedding d.embedding * temporal_weight d.sample_dates target_date

/-- Body of the candidate loop of `identify_speaker`: skip a candidate whose
stored vector has a different shape, otherwise keep the candidate when its
weighted score strictly improves on the running best. -/
def identify_step (embedding : List ℝ) (target_date : Option ℤ)
    (acc : Option String × ℝ) (e : String × SpeakerData) : Option String × ℝ :=
  if e.2.embedding.length = embedding.length then
    if acc.2 < weighted_score embedding target_date e.2 then
      (some e.1, weighted_score embedding target_date e.2)
    else acc
  else acc

/-- Literal transcription of `VoiceLibrary.identify_speaker`: fold over the
dict in order, skipping shape mismatches, keeping the first strict
improvement over the running best (initially `-1.0`); return the best name
when the best score reaches the threshold, otherwise `(None, max 0 best)`;
`(None, 0.0)` on an empty library. -/
def identify_speaker (lib : List (String × SpeakerData)) (embedding : List ℝ)
    (threshold : ℝ) (target_date : Option ℤ) : Option String × ℝ :=
  if lib.isEmpty then (none, 0)
  else
    let r := lib.foldl (identify_step embedding target_date)
      ((none : Option String), (-1 : ℝ))
    if threshold ≤ r.2 then r else (none, max 0 r.2)

/-- Maximum of a nonempty list of reals (`0` for the empty list); the value
the specification calls the maximum over all candidates. -/
def listMax : List ℝ → ℝ
  | [] => 0
  | s :: rest => rest.foldl max s

/-- Specification-side definition: the maximum over all candidates of the
temporally weighted cosine similarity. -/
def candidate_best_score (lib : List (String × SpeakerData)) (embedding : List ℝ)
    (target_date : Option ℤ) : ℝ :=
  listMax (lib.map (fun e => weighted_score embedding target_date e.2))

/-! ## The sample table (`SqliteVoiceEmbeddingStore` samples) -/

/-- Provenance fields entering `SqliteVoiceEmbeddingStore._sample_key`. -/
structure ProvKey where
  backend : String
  speaker_name : String
  sample_type : String
  file_path : Option String
  episode_id : Option ℤ
  segment_idx : Option ℤ
  start_time : Option ℚ
  end_time : Option ℚ
  voice_sample_id : Option ℤ

/-- Round half to even on rationals, the rounding of Python `round`. -/
def roundHalfEven (q : ℚ) : ℤ :=
  if Int.fract q = (1 : ℚ) / 2 then 2 * round (q / 2) else round q

/-- Millisecond image of a time under the `%.3f` formatting of `_sample_key`;
two times produce the same formatted field exactly when they produce the
same rounded millisecond count, which is what the key identity needs. -/
def fmt3 (q : ℚ) : String := toString (roundHalfEven (q * 1000))

/-- Text of an optional integer field, empty when absent. -/
def optIntStr (o : Option ℤ) : String := o.elim "" toString

/-- Deterministic sample key of `SqliteVoiceEmbeddingStore._sample_key`:
the provenance fields joined with a pipe. -/
def sample_key (p : ProvKey) : String :=
  String.intercalate "|"
    [p.backend, p.speaker_name, p.sample_type, p.file_path.getD "",
     optIntStr p.episode_id, optIntStr p.segment_idx,
     p.start_time.elim "" fmt3, p.end_time.elim "" fmt3,
     optIntStr p.voice_sample_id]

/-- Row of `voice_embedding_samples` (the modelled columns). -/
structure DBSample where
  key : String
  speaker_name : String
  sample_type : String
  embedding : List ℝ
  embedding_norm : ℝ
  sample_date : Option ℤ

/-- Upsert of `SqliteVoiceEmbeddingStore.upsert_sample_embedding`: insert a
fresh row, or on a `sample_key` conflict update the payload columns of the
existing row in place (`speaker_name` and `sample_type` are not in the
`DO UPDATE SET` list and keep their stored values). -/
def upsert_sample_embedding (tbl : List DBSample) (p : ProvKey) (embedding : List ℝ)
    (sample_date : Option ℤ) : List DBSample :=
  let k := sample_key p
  if tbl.any (fun r => r.key = k) then
    tbl.map (fun r =>
      if r.key = k then
        { r with embedding := embedding, embedding_norm := norm2 embedding,
                 sample_date := sample_date }
      else r)
  else
    tbl ++ [{ key := k, speaker_name := p.speaker_name, sample_type := p.sample_type,
              embedding := embedding, embedding_norm := norm2 embedding,
              sample_date := sample_date }]

/-! ## Centroid bulk writes (`replace_centroids`, `import_centroids_missing_only`) -/

/-- One centroid record as exchanged by the bulk write operations; the store
for one backend is an association list of these keyed by speaker name (the
spec-level view in which the backend has a single model row). -/
structure CentroidEntry where
  embedding : List ℝ
  short_name : Option String
  sample_file : Option String
  sample_count : ℤ
  sample_dates : List ℤ
  sample_type : String

/-- Sample-type defaulting applied by `replace_centroids`
(`data.get("sample_type") or "speaker"`). -/
def normalize_sample_type (s : String) : String := if s = "" then "speaker" else s

/-- Bulk rewrite of `SqliteVoiceEmbeddingStore.replace_centroids` for one
backend: the previous centroid set is replaced by the given map, skipping
entries whose vector is empty. -/
def replace_centroids (embeddings : List (String × CentroidEntry)) :
    List (String × CentroidEntry) :=
  (embeddings.filter (fun e => !(e.2.embedding.isEmpty))).map
    (fun e => (e.1, { e.2 with sample_type := normalize_sample_type e.2.sample_type }))

/-- Merge of `SqliteVoiceEmbeddingStore.import_centroids_missing_only`:
keep the loaded store, add the imported speakers that are not present, write
the union back through `replace_centroids`, and return how many imported
keys were missing. -/
def import_centroids_missing_only (store : List (String × CentroidEntry))
    (embeddings : List (String × CentroidEntry)) : ℕ × List (String × CentroidEntry) :=
  let to_import := embeddings.filter (fun e => !(store.any (fun s => s.1 = e.1)))
  if to_import.isEmpty then (0, store)
  else (to_import.length, replace_centroids (store ++ to_import))

/-! ## Rebuild (`SqliteVoiceEmbeddingStore.rebuild_centroids_from_samples`) -/

/-- One row of the sample join read by the rebuild (`embedding_dim` is the
model's dimension from the joined `voice_embedding_models` row; the date is
already pushed through `_normalize_sample_date`, `none` when absent or
unparseable). -/
structure SampleRow where
  model_id : ℤ
  speaker_name : String
  sample_type : String
  sample_date : Option ℤ
  file_path : Option String
  blob : List ℝ
  embedding_dim : ℕ

/-- Decode of `_unpack_embedding_blob`: truncate to the model dimension when
the stored vector is longer and the dimension is nonzero. -/
def unpack_embedding_blob (blob : List ℝ) (dim : ℕ) : List ℝ :=
  if dim ≠ 0 ∧ dim < blob.length then blob.take dim else blob

/-- Grouping key of the rebuild: `(backend_model_id, speaker_name, sample_type)`. -/
def rowKey (r : SampleRow) : ℤ × String × String := (r.model_id, r.speaker_name, r.sample_type)

/-- Rows of one group, in table order. -/
def group_rows (rows : List SampleRow) (k : ℤ × String × String) : List SampleRow :=
  rows.filter (fun r => rowKey r = k)

/-- Rows of one group whose decoded vector is nonempty (rows with an empty
vector are skipped before any of their fields are recorded). -/
def live_rows (rows : List SampleRow) (k : ℤ × String × String) : List SampleRow :=
  (group_rows rows k).filter (fun r => !(unpack_embedding_blob r.blob r.embedding_dim).isEmpty)

/-- Decoded vectors of one group, in table order. -/
def group_vectors (rows : List SampleRow) (k : ℤ × String × String) : List (List ℝ) :=
  (live_rows rows k).map (fun r => unpack_embedding_blob r.blob r.embedding_dim)

/-- Centroid row written by the rebuild for one group. -/
structure CentroidRow where
  short_name : String
  sample_file : Option String
  sample_count : ℕ
  sample_dates : List ℤ
  centroid : List ℝ
  embedding_dim : ℕ

/-- Centroid written for one group key, `none` when the group has no usable
vector: the arithmetic mean of the group's vectors, the count of those
vectors, the last 100 normalized dates in table order, and the basename of
the first non-null file path. -/
def group_centroid (rows : List SampleRow) (k : ℤ × String × String) : Option CentroidRow :=
  let vecs := group_vectors rows k
  if vecs.isEmpty then none
  else
    some
      { short_name := firstWord k.2.1
        sample_file := (((live_rows rows k).filterMap (fun r => r.file_path)).head?).map basename
        sample_count := vecs.length
        sample_dates := lastN 100 ((live_rows rows k).filterMap (fun r => r.sample_date))
        centroid := meanVec vecs
        embedding_dim := (meanVec vecs).length }

/-- Summary counters returned by the rebuild. -/
structure RebuildSummary where
  sample_rows : ℕ
  group_count : ℕ
  centroids_written : ℕ
deriving DecidableEq

/-- Transcription of `rebuild_centroids_from_samples`: every previous
centroid of the backend is deleted, then one centroid per group with a
usable vector is written; the summary counts the scanned rows, the distinct
group keys, and the groups actually written. -/
def rebuild_centroids_from_samples (rows : List SampleRow) :
    RebuildSummary × ((ℤ × String × String) → Option CentroidRow) :=
  ({ sample_rows := rows.length
     group_count := (rows.map rowKey).dedup.length
     centroids_written :=
       ((rows.map rowKey).dedup.filter (fun k => !(group_vectors rows k).isEmpty)).length },
   fun k => group_centroid rows k)

/-! ## Transcript aligner (`speaker_diarization.merge_transcript_with_diarization`) -/

/-- One diarization turn as consumed by the aligner. -/
structure SpeakerTurn where
  turn_start : ℚ
  turn_stop : ℚ
  speaker : String
deriving DecidableEq

/-- First turn whose closed interval contains the instant, the aligner's
linear scan with break. -/
def find_turn_at (turns : List SpeakerTurn) (t : ℚ) : Option SpeakerTurn :=
  turns.find? (fun s => s.turn_start ≤ t ∧ t ≤ s.turn_stop)

/-- Label assigned to one transcript segment: the label of the first turn
containing the midpoint, with Python truthiness turning an empty label into
`UNKNOWN` (`t_seg["speaker"] = speaker or "UNKNOWN"`). -/
def assign_speaker (turns : List SpeakerTurn) (t_start t_stop : ℚ) : String :=
  let t_mid := (t_start + t_stop) / 2
  match find_turn_at turns t_mid with
  | some s => if s.speaker = "" then "UNKNOWN" else s.speaker
  | none => "UNKNOWN"

/-- Timestamps of one transcript segment (the numeric faster-whisper form;
the string-timestamp form is parsed to the same two numbers upstream). -/
structure TranscriptSeg where
  seg_start : ℚ
  seg_stop : ℚ
deriving DecidableEq

/-- Per-segment speaker labels produced by
`merge_transcript_with_diarization`, in transcript order. -/
def merge_transcript_with_diarization (tsegs : List TranscriptSeg)
    (turns : List SpeakerTurn) : List String :=
  tsegs.map (fun t => assign_speaker turns t.seg_start t.seg_stop)

/-! ## Diarization bridge (`VoiceLibrary.identify_speakers_in_diarization`) -/

/-- One diarization segment as consumed by the bridge. -/
structure DiarSeg where
  seg_start : ℚ
  seg_stop : ℚ
  speaker : Option String
deriving DecidableEq

/-- Turn duration, the sort key `s.get("end", 0) - s.get("start", 0)`. -/
def duration (s : DiarSeg) : ℚ := s.seg_stop - s.seg_start

/-- Stable insertion into a duration-descending list: the new element goes
after every element of duration greater than or equal to its own. -/
def insert_by_duration (s : DiarSeg) : List DiarSeg → List DiarSeg
  | [] => [s]
  | u :: rest =>
    if duration u < duration s then s :: u :: rest else u :: insert_by_duration s rest

/-- Stable sort by duration descending, the semantics of the Python
`segments.sort(key=duration, reverse=True)` (Python sorts are stable). -/
def sort_by_duration_desc : List DiarSeg → List DiarSeg
  | [] => []
  | s :: rest => insert_by_duration s (sort_by_duration_desc rest)

/-- Python `int()` on an exact rational: truncation toward zero. -/
def pyInt (q : ℚ) : ℤ := q.num.tdiv (q.den : ℤ)

/-- Turns carrying one diarization label (labels that are `None`, empty, or
`UNKNOWN` are never grouped). -/
def label_turns (segs : List DiarSeg) (label : String) : List DiarSeg :=
  segs.filter (fun s => s.speaker = some label)

/-- Whether a label gets a group in `speaker_segments`. -/
def has_label (segs : List DiarSeg) (label : String) : Bool :=
  label ≠ "" && label ≠ "UNKNOWN" && segs.any (fun s => s.speaker = some label)

/-- First sample index of the cropped sub-waveform at 16 kHz. -/
def start_sample (s : DiarSeg) : ℤ := pyInt (s.seg_start * 16000)

/-- Last sample index of the cropped sub-waveform, clamped to the waveform
length. -/
def end_sample (s : DiarSeg) (wave_len : ℤ) : ℤ := min (pyInt (s.seg_stop * 16000)) wave_len

/-- Embeddings gathered for one label: the five longest turns, each cropped
to samples, dropped when the crop is shorter than one second (16000
samples), the rest handed to the external extractor (`none` models an
extraction failure, which is skipped). -/
def label_embeddings (extract : ℤ → ℤ → Option (List ℝ)) (wave_len : ℤ)
    (turns : List DiarSeg) : List (List ℝ) :=
  ((sort_by_duration_desc turns).take 5).filterMap (fun s =>
    if end_sample s wave_len - start_sample s < 16000 then none
    else extract (start_sample s) (end_sample s wave_len))

/-- Python `round(x, 3)` on the modelled reals: round half to even at the
third decimal. -/
def pyRound (x : ℝ) : ℤ :=
  if Int.fract x = (1 : ℝ) / 2 then 2 * round (x / 2) else round x

/-- Score rounding `round(score, 3)` applied before recording a confidence. -/
def round3 (x : ℝ) : ℝ := ((pyRound (x * 1000) : ℤ) : ℝ) / 1000

/-- Python truthiness filter on the matched name (`if match:`): an empty
name is treated as no match. -/
def pyTruthyName : Option String → Option String
  | some s => if s = "" then none else some s
  | none => none

/-- Work done for one label: no embeddings means no match and no recorded
score, otherwise the mean embedding is identified against the library with
the default threshold `0.5` and the episode date, and the score is recorded
rounded to three decimals. -/
def identify_label (lib : List (String × SpeakerData)) (extract : ℤ → ℤ → Option (List ℝ))
    (wave_len : ℤ) (episode_date : Option ℤ) (turns : List DiarSeg) :
    Option String × Option ℝ :=
  let embs := label_embeddings extract wave_len turns
  if embs.isEmpty then (none, none)
  else
    let r := identify_speaker lib (meanVec embs) 0.5 episode_date
    (r.1, some (round3 r.2))

/-- Default-mode result of `identify_speakers_in_diarization`, viewed
extensionally: the mapping holds a name for a label exactly when the label
has a group and its identification matched (a truthy name). An empty
library returns the empty mapping. -/
def identify_speakers_in_diarization (lib : List (String × SpeakerData))
    (segs : List DiarSeg) (wave_len : ℤ) (extract : ℤ → ℤ → Option (List ℝ))
    (episode_date : Option ℤ) : String → Option String :=
  fun label =>
    if lib.isEmpty then none
    else if has_label segs label then
      pyTruthyName (identify_label lib extract wave_len episode_date (label_turns segs label)).1
    else none

/-- One entry of the `return_scores=True` result. -/
structure LabelScore where
  name : Option String
  confidence : ℝ

/-- Result of `identify_speakers_in_diarization` with `return_scores=True`:
every grouped label gets an entry, carrying the default-mode name (or
`none`) and the recorded score, `0.0` when no score was recorded. -/
def identify_speakers_in_diarization_scores (lib : List (String × SpeakerData))
    (segs : List DiarSeg) (wave_len : ℤ) (extract : ℤ → ℤ → Option (List ℝ))
    (episode_date : Option ℤ) : String → Option LabelScore :=
  fun label =>
    if lib.isEmpty then none
    else if has_label segs label then
      let r := identify_label lib extract wave_len episode_date (label_turns segs label)
      some { name := pyTruthyName r.1, confidence := (r.2).getD 0 }
    else none

/-! ## Helper lemmas -/

theorem find?_map_keyreplace {α : Type} (k : String) (v : α) (l : List (String × α)) :
    (l.map (fun e => if e.1 = k then (k, v) else e)).find? (fun e => e.1 = k) =
      (l.find? (fun e => e.1 = k)).map (fun _ => (k, v)) := by
  induction l with
  | nil => rfl
  | cons e t ih =>
    by_cases he : e.1 = k
    · simp [List.find?_cons, he]
    · simp [List.find?_cons, if_neg he, he, ih]

theorem alist_find_set_self {α : Type} (l : List (String × α)) (k : String) (v : α) :
    alist_find (alist_set l k v) k = some v := by
  unfold alist_find alist_set
  by_cases h : l.any (fun e => e.1 = k)
  · rw [if_pos h, find?_map_keyreplace]
    rcases List.any_eq_true.mp h with ⟨e, he, hek⟩
    cases hf : l.find? (fun e => decide (e.1 = k)) with
    | none =>
      exact absurd hek ((List.find?_eq_none.mp hf) e he)
    | some w => simp
  · rw [if_neg h, List.find?_append]
    have hnone : l.find? (fun e => decide (e.1 = k)) = none := by
      rw [List.find?_eq_none]
      intro x hx hxk
      exact h (List.any_eq_true.mpr ⟨x, hx, hxk⟩)
    simp [hnone]

theorem foldl_max_le_iff {l : List ℝ} : ∀ {b c : ℝ},
    l.foldl max b ≤ c ↔ b ≤ c ∧ ∀ a ∈ l, a ≤ c := by
  induction l with
  | nil => simp
  | cons r t ih =>
    intro b c
    simp only [List.foldl_cons, ih, max_le_iff, List.mem_cons]
    constructor
    · rintro ⟨⟨hb, hr⟩, ht⟩
      exact ⟨hb, fun a ha => ha.elim (fun h => h ▸ hr) (ht a)⟩
    · rintro ⟨hb, ht⟩
      exact ⟨⟨hb, ht r (Or.inl rfl)⟩, fun a ha => ht a (Or.inr ha)⟩

theorem foldl_max_mem : ∀ (l : List ℝ) (b : ℝ), l.foldl max b = b ∨ l.foldl max b ∈ l := by
  intro l
  induction l with
  | nil => intro b; exact Or.inl rfl
  | cons r t ih =>
    intro b
    rcases ih (max b r) with h | h
    · rcases max_choice b r with hb | hr
      · exact Or.inl (by rw [List.foldl_cons, h, hb])
      · exact Or.inr (by rw [List.foldl_cons, h, hr]; exact List.mem_cons_self r t)
    · exact Or.inr (List.mem_cons_of_mem r h)

theorem le_listMax {l : List ℝ} {a : ℝ} (ha : a ∈ l) : a ≤ listMax l := by
  cases l with
  | nil => cases ha
  | cons s rest =>
    show a ≤ rest.foldl max s
    have h := (@foldl_max_le_iff rest s (rest.foldl max s)).mp le_rfl
    rcases List.mem_cons.mp ha with h1 | h1
    · exact h1 ▸ h.1
    · exact h.2 a h1

theorem listMax_mem {l : List ℝ} (h : l ≠ []) : listMax l ∈ l := by
  cases l with
  | nil => exact absurd rfl h
  | cons s rest =>
    show rest.foldl max s ∈ s :: rest
    rcases foldl_max_mem rest s with h1 | h1
    · rw [h1]; exact List.mem_cons_self s rest
    · exact List.mem_cons_of_mem s h1

theorem foldl_max_init (b : ℝ) (l : List ℝ) (h : l ≠ []) :
    l.foldl max b = max b (listMax l) := by
  cases l with
  | nil => exact absurd rfl h
  | cons s rest =>
    show (s :: rest).foldl max b = max b (rest.foldl max s)
    rw [List.foldl_cons]
    exact List.foldl_assoc

theorem exists_first_argmax {α : Type} (f : α → ℝ) :
    ∀ l : List α, l ≠ [] →
      ∃ pre x post, l = pre ++ x :: post ∧ (∀ a ∈ pre, f a < f x) ∧ ∀ a ∈ post, f a ≤ f x := by
  intro l
  induction l with
  | nil => intro h; exact absurd rfl h
  | cons a t ih =>
    intro _
    cases t with
    | nil => exact ⟨[], a, [], rfl, by simp, by simp⟩
    | cons b u =>
      obtain ⟨pre, x, post, heq, hpre, hpost⟩ := ih (by simp)
      by_cases hax : f a < f x
      · refine ⟨a :: pre, x, post, by rw [heq]; rfl, ?_, hpost⟩
        intro c hc
        rcases List.mem_cons.mp hc with h1 | h1
        · exact h1 ▸ hax
        · exact hpre c h1
      · push_neg at hax
        refine ⟨[], a, b :: u, rfl, by simp, ?_⟩
        intro c hc
        rw [heq] at hc
        rcases List.mem_append.mp hc with h1 | h1
        · exact le_trans (le_of_lt (hpre c h1)) hax
        · rcases List.mem_cons.mp h1 with h2 | h2
          · exact h2 ▸ hax
          · exact le_trans (hpost c h2) hax

/-! ## Claim C2: the temporal weight -/

/-- Claim C2: for a present target date and a non-empty parseable
sample-date history, the temporal weight equals
`0.5 + 0.5 * exp(-|days between target and mean sample date| / 365)`; it is
`1.0` at zero day distance, strictly decreasing as the day distance grows,
never below `0.5`; and it is exactly `1.0` when the target date or the
history is absent. -/
theorem temporal_weight_spec :
    (∀ (dates : List (Option ℤ)) (t avg : ℤ), mean_date dates = some avg →
        temporal_weight dates (some t) =
          0.5 + 0.5 * Real.exp (-((|t - avg| : ℤ) : ℝ) / 365)) ∧
    (∀ (dates : List (Option ℤ)) (t avg : ℤ), mean_date dates = some avg → t = avg →
        temporal_weight dates (some t) = 1) ∧
    (∀ (dates₁ dates₂ : List (Option ℤ)) (t₁ avg₁ t₂ avg₂ : ℤ),
        mean_date dates₁ = some avg₁ → mean_date dates₂ = some avg₂ →
        |t₁ - avg₁| < |t₂ - avg₂| →
        temporal_weight dates₂ (some t₂) < temporal_weight dates₁ (some t₁)) ∧
    (∀ (dates : List (Option ℤ)) (td : Option ℤ), (0.5 : ℝ) ≤ temporal_weight dates td) ∧
    (∀ dates : List (Option ℤ), temporal_weight dates none = 1) ∧
    (∀ td : Option ℤ, temporal_weight [] td = 1) := by
  have hne : ∀ (dates : List (Option ℤ)) (avg : ℤ), mean_date dates = some avg →
      dates.isEmpty = false := by
    intro dates avg h
    cases dates with
    | nil => simp [mean_date] at h
    | cons d t => rfl
  have hformula : ∀ (dates : List (Option ℤ)) (t avg : ℤ), mean_date dates = some avg →
      temporal_weight dates (some t) =
        0.5 + 0.5 * Real.exp (-((|t - avg| : ℤ) : ℝ) / 365) := by
    intro dates t avg h
    unfold temporal_weight
    rw [hne dates avg h, h]
    rfl
  refine ⟨hformula, ?_, ?_, ?_, fun _ => rfl, ?_⟩
  · intro dates t avg h ht
    rw [hformula dates t avg h, ht]
    simp [Real.exp_zero]
    norm_num
  · intro dates₁ dates₂ t₁ avg₁ t₂ avg₂ h₁ h₂ hlt
    rw [hformula dates₁ t₁ avg₁ h₁, hformula dates₂ t₂ avg₂ h₂]
    have he : Real.exp (-((|t₂ - avg₂| : ℤ) : ℝ) / 365) <
        Real.exp (-((|t₁ - avg₁| : ℤ) : ℝ) / 365) := by
      apply Real.exp_lt_exp.mpr
      have : ((|t₁ - avg₁| : ℤ) : ℝ) < ((|t₂ - avg₂| : ℤ) : ℝ) := by exact_mod_cast hlt
      linarith
    linarith
  · intro dates td
    unfold temporal_weight
    cases td with
    | none => norm_num
    | some t =>
      cases h : dates.isEmpty with
      | true => show (0.5 : ℝ) ≤ 1; norm_num
      | false =>
        cases hm : mean_date dates with
        | none => show (0.5 : ℝ) ≤ 1; norm_num
        | some avg =>
          show (0.5 : ℝ) ≤ 0.5 + 0.5 * Real.exp (-((|t - avg| : ℤ) : ℝ) / 365)
          have := Real.exp_pos (-((|t - avg| : ℤ) : ℝ) / 365)
          linarith
  · intro td
    unfold temporal_weight
    cases td <;> rfl

/-- Witness for C2 at a concrete input: a single sample dated at the target
ordinal gives mean date equal to the target and weight exactly one. -/
theorem temporal_weight_spec_witness :
    mean_date [some 0] = some 0 ∧ temporal_weight [some 0] (some (0 : ℤ)) = 1 := by
  have hm : mean_date [some 0] = some 0 := by
    unfold mean_date
    simp [Int.fdiv]
  exact ⟨hm, temporal_weight_spec.2.1 [some 0] 0 0 hm rfl⟩

/-! ## Claims C3 and C6: the running-mean update of add_speaker -/

/-- Claim C3: a new same-dimension sample for a speaker that already has a
centroid with sample count `n` (with updating enabled) replaces the centroid
by `(old * n + new) / (n + 1)` and stores sample count `n + 1`. -/
theorem add_speaker_running_mean (lib : List (String × SpeakerData)) (name : String)
    (new_embedding : List ℝ) (short_name : Option String) (fname : String)
    (sample_date : Option ℤ) (d : SpeakerData)
    (hfound : alist_find lib name = some d)
    (hdim : d.embedding.length = new_embedding.length) :
    ∃ d', alist_find (add_speaker lib name new_embedding short_name fname sample_date true).2 name
        = some d' ∧
      d'.embedding = runningMean d.embedding d.sample_count new_embedding ∧
      d'.sample_count = d.sample_count + 1 := by
  unfold add_speaker
  simp only [hfound]
  rw [if_pos ⟨trivial, hdim⟩]
  exact ⟨_, alist_find_set_self lib name _, rfl, rfl⟩

/-- Shared concrete speaker record used by the witnesses. -/
def speakerMatt : SpeakerData :=
  { embedding := [1, 0], short_name := "Matt", sample_file := "matt.wav",
    sample_count := 2, sample_dates := [some 738000] }

/-- Witness for C3 at a concrete input: a two-sample speaker absorbs a
two-dimensional sample. -/
theorem add_speaker_running_mean_witness :
    alist_find [("Matt", speakerMatt)] "Matt" = some speakerMatt ∧
    ∃ d', alist_find
        (add_speaker [("Matt", speakerMatt)] "Matt" [5, 7] none "x.wav" none true).2 "Matt" =
          some d' ∧
      d'.embedding = runningMean speakerMatt.embedding speakerMatt.sample_count [5, 7] ∧
      d'.sample_count = speakerMatt.sample_count + 1 := by
  have hfound : alist_find [("Matt", speakerMatt)] "Matt" = some speakerMatt := by
    simp [alist_find]
  exact ⟨hfound,
    add_speaker_running_mean [("Matt", speakerMatt)] "Matt" [5, 7] none "x.wav" none
      speakerMatt hfound rfl⟩

/-- Claim C6: a sample whose dimension differs from the stored centroid does
not error and does not mix: the entry is restarted with the new sample as
sole member (count 1) and the call still reports success. -/
theorem add_speaker_dimension_mismatch (lib : List (String × SpeakerData)) (name : String)
    (new_embedding : List ℝ) (short_name : Option String) (fname : String)
    (sample_date : Option ℤ) (d : SpeakerData)
    (hfound : alist_find lib name = some d)
    (hdim : d.embedding.length ≠ new_embedding.length) :
    (add_speaker lib name new_embedding short_name fname sample_date true).1 = true ∧
    alist_find (add_speaker lib name new_embedding short_name fname sample_date true).2 name =
      some { embedding := new_embedding
             short_name := resolve_short_name short_name name
             sample_file := fname
             sample_count := 1
             sample_dates := match sample_date with | some dt => [some dt] | none => [] } := by
  unfold add_speaker
  simp only [hfound]
  rw [if_neg (fun h => hdim h.2)]
  exact ⟨rfl, alist_find_set_self lib name _⟩

/-- Witness for C6 at a concrete input: a three-dimensional sample arrives
for a speaker stored with a two-dimensional centroid. -/
theorem add_speaker_dimension_mismatch_witness :
    alist_find [("Matt", speakerMatt)] "Matt" = some speakerMatt ∧
    ((3 : ℕ) ≠ 2) ∧
    ((add_speaker [("Matt", speakerMatt)] "Matt" [1, 2, 3] none "y.wav" none true).1 = true ∧
      alist_find
        (add_speaker [("Matt", speakerMatt)] "Matt" [1, 2, 3] none "y.wav" none true).2 "Matt" =
        some { embedding := [1, 2, 3]
               short_name := resolve_short_name none "Matt"
               sample_file := "y.wav"
               sample_count := 1
               sample_dates := [] }) := by
  have hfound : alist_find [("Matt", speakerMatt)] "Matt" = some speakerMatt := by
    simp [alist_find]
  exact ⟨hfound, by norm_num,
    add_speaker_dimension_mismatch [("Matt", speakerMatt)] "Matt" [1, 2, 3] none "y.wav" none
      speakerMatt hfound (by simp [speakerMatt])⟩

/-! ## Claim C8: the transcript aligner midpoint rule -/

theorem find?_first {α : Type} (p : α → Bool) (pre : List α) (x : α) (post : List α)
    (hx : p x = true) (hpre : ∀ u ∈ pre, p u = false) :
    (pre ++ x :: post).find? p = some x := by
  induction pre with
  | nil => simp [List.find?_cons, hx]
  | cons u t ih =>
    have hu : p u = false := hpre u (List.mem_cons_self u t)
    have ht : ∀ v ∈ t, p v = false := fun v hv => hpre v (List.mem_cons_of_mem u hv)
    simp [List.find?_cons, hu, ih ht]

/-- Claim C8 (amended): each transcript segment is assigned the label of the
first diarization turn whose closed interval contains the segment midpoint,
provided that label is non-empty (the code replaces an empty label by
`UNKNOWN`); when no turn contains the midpoint the segment is assigned
`UNKNOWN`; and the merge applies this rule segmentwise. -/
theorem merge_transcript_midpoint_rule (turns : List SpeakerTurn) (a b : ℚ)
    (hlab : ∀ s ∈ turns, s.speaker ≠ "") :
    (∀ pre s post, turns = pre ++ s :: post →
        (s.turn_start ≤ (a + b) / 2 ∧ (a + b) / 2 ≤ s.turn_stop) →
        (∀ u ∈ pre, ¬(u.turn_start ≤ (a + b) / 2 ∧ (a + b) / 2 ≤ u.turn_stop)) →
        assign_speaker turns a b = s.speaker) ∧
    ((∀ s ∈ turns, ¬(s.turn_start ≤ (a + b) / 2 ∧ (a + b) / 2 ≤ s.turn_stop)) →
        assign_speaker turns a b = "UNKNOWN") ∧
    (∀ (tsegs : List TranscriptSeg) (i : ℕ) (hi : i < tsegs.length),
        (merge_transcript_with_diarization tsegs turns)[i]? =
          some (assign_speaker turns tsegs[i].seg_start tsegs[i].seg_stop)) := by
  refine ⟨?_, ?_, ?_⟩
  · intro pre s post heq hs hpre
    have hsmem : s ∈ turns := by
      rw [heq]; exact List.mem_append.mpr (Or.inr (List.mem_cons_self s post))
    have hfind : find_turn_at turns ((a + b) / 2) = some s := by
      unfold find_turn_at
      rw [heq]
      apply find?_first
      · simpa using hs
      · intro u hu
        simpa using hpre u hu
    unfold assign_speaker
    simp only [hfind]
    rw [if_neg (hlab s hsmem)]
  · intro hnone
    have hfind : find_turn_at turns ((a + b) / 2) = none := by
      unfold find_turn_at
      rw [List.find?_eq_none]
      intro u hu
      simpa using hnone u hu
    unfold assign_speaker
    simp only [hfind]
  · intro tsegs i hi
    unfold merge_transcript_with_diarization
    rw [List.getElem?_map, List.getElem?_eq_getElem hi]
    rfl

/-- Counterexample to C8 as stated: a turn carrying the empty string as its
label contains the midpoint, yet the aligner assigns `UNKNOWN` rather than
that turn's label. -/
theorem assign_speaker_empty_label_counterexample :
    assign_speaker [⟨0, 10, ""⟩] 2 4 = "UNKNOWN" ∧
    find_turn_at [⟨0, 10, ""⟩] ((2 + 4) / 2) = some ⟨0, 10, ""⟩ ∧
    ("UNKNOWN" : String) ≠ "" := by
  have hfind : find_turn_at [⟨0, 10, ""⟩] ((2 + 4) / 2) = some ⟨0, 10, ""⟩ := by
    unfold find_turn_at
    apply List.find?_cons_of_pos
    simp only [decide_eq_true_eq]
    constructor <;> norm_num
  refine ⟨?_, hfind, by decide⟩
  unfold assign_speaker
  simp only [hfind]
  rfl

/-- Witness for C8 at a concrete input: a single turn with a real label
containing the midpoint of the segment `(2, 4)` is assigned. -/
theorem merge_transcript_midpoint_rule_witness :
    (∀ s ∈ [(⟨0, 10, "S"⟩ : SpeakerTurn)], s.speaker ≠ "") ∧
    assign_speaker [⟨0, 10, "S"⟩] 2 4 = "S" := by
  have hlab : ∀ s ∈ [(⟨0, 10, "S"⟩ : SpeakerTurn)], s.speaker ≠ "" := by decide
  exact ⟨hlab,
    (merge_transcript_midpoint_rule [⟨0, 10, "S"⟩] 2 4 hlab).1 [] ⟨0, 10, "S"⟩ [] rfl
      ⟨by norm_num, by norm_num⟩ (by intro u hu; cases hu)⟩

/-! ## Claim C1: the identify_speaker selection rule -/

theorem identify_fold_snd (embedding : List ℝ) (td : Option ℤ) :
    ∀ (lib : List (String × SpeakerData)) (acc : Option String × ℝ),
      (∀ e ∈ lib, (e.2 : SpeakerData).embedding.length = embedding.length) →
      (lib.foldl (identify_step embedding td) acc).2 =
        (lib.map (fun e => weighted_score embedding td e.2)).foldl max acc.2 := by
  intro lib
  induction lib with
  | nil => intro acc _; rfl
  | cons e t ih =>
    intro acc hdim
    have he : (e.2 : SpeakerData).embedding.length = embedding.length :=
      hdim e (List.mem_cons_self e t)
    have ht : ∀ x ∈ t, (x.2 : SpeakerData).embedding.length = embedding.length :=
      fun x hx => hdim x (List.mem_cons_of_mem e hx)
    rw [List.foldl_cons, List.map_cons, List.foldl_cons, ih _ ht]
    congr 1
    unfold identify_step
    rw [if_pos he]
    by_cases hlt : acc.2 < weighted_score embedding td e.2
    · rw [if_pos hlt]
      exact (max_eq_right (le_of_lt hlt)).symm
    · rw [if_neg hlt]
      exact (max_eq_left (not_lt.mp hlt)).symm

theorem identify_fold_no_update (embedding : List ℝ) (td : Option ℤ) :
    ∀ (lib : List (String × SpeakerData)) (acc : Option String × ℝ),
      (∀ e ∈ lib, weighted_score embedding td e.2 ≤ acc.2) →
      lib.foldl (identify_step embedding td) acc = acc := by
  intro lib
  induction lib with
  | nil => intro acc _; rfl
  | cons e t ih =>
    intro acc hle
    have hstep : identify_step embedding td acc e = acc := by
      unfold identify_step
      by_cases hd : (e.2 : SpeakerData).embedding.length = embedding.length
      · rw [if_pos hd, if_neg (not_lt.mpr (hle e (List.mem_cons_self e t)))]
      · rw [if_neg hd]
    rw [List.foldl_cons, hstep]
    exact ih acc (fun x hx => hle x (List.mem_cons_of_mem e hx))

theorem identify_fold_first_argmax (embedding : List ℝ) (td : Option ℤ)
    (name : String) (d : SpeakerData) :
    ∀ (pre post : List (String × SpeakerData)) (acc : Option String × ℝ),
      (∀ e ∈ pre ++ (name, d) :: post,
        (e.2 : SpeakerData).embedding.length = embedding.length) →
      acc.2 < weighted_score embedding td d →
      (∀ e ∈ pre, weighted_score embedding td e.2 < weighted_score embedding td d) →
      (∀ e ∈ post, weighted_score embedding td e.2 ≤ weighted_score embedding td d) →
      (pre ++ (name, d) :: post).foldl (identify_step embedding td) acc =
        (some name, weighted_score embedding td d) := by
  intro pre
  induction pre with
  | nil =>
    intro post acc hdim hacc hpre hpost
    rw [List.nil_append, List.foldl_cons]
    have hd : ((name, d) : String × SpeakerData).2.embedding.length = embedding.length :=
      hdim (name, d) (by simp)
    have hstep : identify_step embedding td acc (name, d) =
        (some name, weighted_score embedding td d) := by
      unfold identify_step
      rw [if_pos hd, if_pos hacc]
    rw [hstep]
    exact identify_fold_no_update embedding td post _ (fun x hx => hpost x hx)
  | cons e t ih =>
    intro post acc hdim hacc hpre hpost
    rw [List.cons_append, List.foldl_cons]
    have hlt_e : weighted_score embedding td e.2 < weighted_score embedding td d :=
      hpre e (List.mem_cons_self e t)
    have hstep2 : (identify_step embedding td acc e).2 < weighted_score embedding td d := by
      unfold identify_step
      by_cases hd : (e.2 : SpeakerData).embedding.length = embedding.length
      · rw [if_pos hd]
        by_cases hlt : acc.2 < weighted_score embedding td e.2
        · rw [if_pos hlt]; exact hlt_e
        · rw [if_neg hlt]; exact hacc
      · rw [if_neg hd]; exact hacc
    exact ih post _ (fun x hx => hdim x (List.mem_cons_of_mem e hx)) hstep2
      (fun x hx => hpre x (List.mem_cons_of_mem e hx)) hpost

theorem listMax_of_decomp {α : Type} (f : α → ℝ) (pre : List α) (x : α) (post : List α)
    (hpre : ∀ a ∈ pre, f a ≤ f x) (hpost : ∀ a ∈ post, f a ≤ f x) :
    listMax ((pre ++ x :: post).map f) = f x := by
  apply le_antisymm
  · have hmem := listMax_mem (show ((pre ++ x :: post).map f) ≠ [] by simp)
    rcases List.mem_map.mp hmem with ⟨a, ha, hfa⟩
    rw [← hfa]
    rcases List.mem_append.mp ha with h1 | h1
    · exact hpre a h1
    · rcases List.mem_cons.mp h1 with h2 | h2
      · exact h2 ▸ le_rfl
      · exact hpost a h2
  · exact le_listMax (List.mem_map.mpr ⟨x, by simp, rfl⟩)

/-- Claim C1 (amended): on a non-empty library whose candidate vectors all
have the query's dimension and nonzero norm (zero norms produce NaN in the
source and are outside this model), and for a threshold above the `-1.0`
loop seed, `identify_speaker` returns the first argmax candidate together
with the maximum weighted score whenever that maximum reaches the
threshold; otherwise it returns `(None, max 0 best)` — the best observed
score clamped at zero, not the raw best score; an empty library yields
`(None, 0.0)`. -/
theorem identify_speaker_selection_rule (lib : List (String × SpeakerData))
    (embedding : List ℝ) (threshold : ℝ) (target_date : Option ℤ)
    (hne : lib ≠ [])
    (hdim : ∀ e ∈ lib, (e.2 : SpeakerData).embedding.length = embedding.length)
    (hq : 0 < norm2 embedding)
    (hc : ∀ e ∈ lib, 0 < norm2 (e.2 : SpeakerData).embedding)
    (hthr : (-1 : ℝ) < threshold) :
    (threshold ≤ candidate_best_score lib embedding target_date →
      ∃ name d pre post,
        lib = pre ++ (name, d) :: post ∧
        weighted_score embedding target_date d = candidate_best_score lib embedding target_date ∧
        (∀ e ∈ pre, weighted_score embedding target_date e.2 <
          candidate_best_score lib embedding target_date) ∧
        identify_speaker lib embedding threshold target_date =
          (some name, candidate_best_score lib embedding target_date)) ∧
    (candidate_best_score lib embedding target_date < threshold →
      identify_speaker lib embedding threshold target_date =
        (none, max 0 (candidate_best_score lib embedding target_date))) ∧
    (∀ (emb : List ℝ) (thr : ℝ) (td : Option ℤ), identify_speaker [] emb thr td = (none, 0)) := by
  have hemp : lib.isEmpty = false := by
    cases lib with
    | nil => exact absurd rfl hne
    | cons a t => rfl
  have hval : identify_speaker lib embedding threshold target_date =
      if threshold ≤ (lib.foldl (identify_step embedding target_date)
          ((none : Option String), (-1 : ℝ))).2
      then lib.foldl (identify_step embedding target_date) ((none : Option String), (-1 : ℝ))
      else (none, max 0 (lib.foldl (identify_step embedding target_date)
          ((none : Option String), (-1 : ℝ))).2) := by
    unfold identify_speaker
    rw [hemp]
    rfl
  have hsnd : (lib.foldl (identify_step embedding target_date)
      ((none : Option String), (-1 : ℝ))).2 =
      max (-1) (candidate_best_score lib embedding target_date) := by
    rw [identify_fold_snd embedding target_date lib (none, -1) hdim]
    exact foldl_max_init (-1) _
      (by cases lib with | nil => exact absurd rfl hne | cons a t => simp)
  refine ⟨?_, ?_, fun emb thr td => rfl⟩
  · intro hth
    obtain ⟨pre, x, post, heq, hpre, hpost⟩ :=
      exists_first_argmax (fun e => weighted_score embedding target_date e.2) lib hne
    have hxM : weighted_score embedding target_date x.2 =
        candidate_best_score lib embedding target_date := by
      unfold candidate_best_score
      rw [heq]
      exact (listMax_of_decomp _ pre x post (fun a ha => le_of_lt (hpre a ha)) hpost).symm
    have hfold : lib.foldl (identify_step embedding target_date)
        ((none : Option String), (-1 : ℝ)) =
        (some x.1, weighted_score embedding target_date x.2) := by
      rw [heq]
      exact identify_fold_first_argmax embedding target_date x.1 x.2 pre post (none, -1)
        (by rw [← heq]; exact hdim)
        (by rw [hxM]; exact lt_of_lt_of_le hthr hth)
        hpre hpost
    refine ⟨x.1, x.2, pre, post, heq, hxM, ?_, ?_⟩
    · intro e he
      rw [← hxM]
      exact hpre e he
    · rw [hval, hfold]
      rw [if_pos (show threshold ≤ weighted_score embedding target_date x.2 by
        rw [hxM]; exact hth)]
      rw [hxM]
  · intro hth
    rw [hval]
    rw [if_neg (by rw [hsnd]; exact not_le.mpr (max_lt hthr hth))]
    rw [hsnd]
    congr 1
    rw [← max_assoc]
    congr 1
    exact max_eq_left (by norm_num)

/-- Shared evaluation facts for the concrete two-dimensional vectors used by
the counterexamples and witnesses. -/
theorem norm2_pair (x y : ℝ) : norm2 [x, y] = Real.sqrt (x * x + y * y) := by
  unfold norm2 dotList
  simp

theorem norm2_basis_facts :
    norm2 [(1 : ℝ), 0] = 1 ∧ norm2 [(0 : ℝ), 1] = 1 ∧ norm2 [(-1 : ℝ), 0] = 1 := by
  refine ⟨?_, ?_, ?_⟩
  · rw [norm2_pair, show (1 : ℝ) * 1 + 0 * 0 = 1 by norm_num, Real.sqrt_one]
  · rw [norm2_pair, show (0 : ℝ) * 0 + 1 * 1 = 1 by norm_num, Real.sqrt_one]
  · rw [norm2_pair, show (-1 : ℝ) * -1 + 0 * 0 = 1 by norm_num, Real.sqrt_one]

/-- Concrete candidate whose centroid points opposite to the query. -/
def speakerOpp : SpeakerData :=
  { embedding := [-1, 0], short_name := "A", sample_file := "a.wav",
    sample_count := 1, sample_dates := [] }

/-- Counterexample to C1 as stated: a single candidate scoring `-1.0`
(below the threshold) makes `identify_speaker` return `(None, 0.0)` even
though the best observed score is `-1.0`; the claimed return
`(None, best_score_observed)` is wrong, and `(None, 0.0)` no longer
distinguishes this non-empty library from an empty one. -/
theorem identify_speaker_clamps_negative_best :
    identify_speaker [("A", speakerOpp)] [1, 0] 0.5 none = (none, 0) ∧
    candidate_best_score [("A", speakerOpp)] [1, 0] none = -1 ∧
    ((0 : ℝ) ≠ -1) := by
  have hdot : dotList [(1 : ℝ), 0] [(-1 : ℝ), 0] = -1 := by
    unfold dotList
    simp
  have hw : weighted_score [(1 : ℝ), 0] none speakerOpp = -1 := by
    show dotList [(1 : ℝ), 0] [(-1 : ℝ), 0] /
        (norm2 [(1 : ℝ), 0] * norm2 [(-1 : ℝ), 0]) * temporal_weight [] none = -1
    rw [hdot, norm2_basis_facts.1, norm2_basis_facts.2.2]
    show (-1 : ℝ) / (1 * 1) * 1 = -1
    norm_num
  have hbest : candidate_best_score [("A", speakerOpp)] [1, 0] none = -1 := by
    unfold candidate_best_score
    simp only [List.map_cons, List.map_nil, hw]
    rfl
  refine ⟨?_, hbest, by norm_num⟩
  have hfold : ([("A", speakerOpp)] : List (String × SpeakerData)).foldl
      (identify_step [(1 : ℝ), 0] none) ((none : Option String), (-1 : ℝ)) = (none, -1) := by
    show identify_step [(1 : ℝ), 0] none ((none : Option String), (-1 : ℝ)) ("A", speakerOpp)
        = (none, -1)
    unfold identify_step
    simp only [hw]
    norm_num [speakerOpp]
  unfold identify_speaker
  simp only [List.isEmpty_cons, hfold]
  rw [if_neg (by norm_num : ¬ (0.5 : ℝ) ≤ ((none : Option String), (-1 : ℝ)).2)]
  rw [show max (0 : ℝ) (((none : Option String), (-1 : ℝ)).2) = 0 from max_eq_left (by norm_num)]
  rfl

/-- Witness for the amended C1 at a concrete input: a query orthogonal to
the only centroid scores `0`, below the default threshold, and the call
returns the clamped best score. -/
theorem identify_speaker_selection_rule_witness :
    candidate_best_score [("Matt", speakerMatt)] [0, 1] none < 0.5 ∧
    identify_speaker [("Matt", speakerMatt)] [0, 1] 0.5 none =
      (none, max 0 (candidate_best_score [("Matt", speakerMatt)] [0, 1] none)) := by
  have hdot : dotList [(0 : ℝ), 1] [(1 : ℝ), 0] = 0 := by
    unfold dotList
    simp
  have hw : weighted_score [(0 : ℝ), 1] none speakerMatt = 0 := by
    show dotList [(0 : ℝ), 1] [(1 : ℝ), 0] /
        (norm2 [(0 : ℝ), 1] * norm2 [(1 : ℝ), 0]) *
          temporal_weight [some 738000] none = 0
    rw [hdot]
    show (0 : ℝ) / (norm2 [(0 : ℝ), 1] * norm2 [(1 : ℝ), 0]) * 1 = 0
    rw [zero_div, zero_mul]
  have hbest : candidate_best_score [("Matt", speakerMatt)] [0, 1] none = 0 := by
    unfold candidate_best_score
    simp only [List.map_cons, List.map_nil, hw]
    rfl
  have hlt : candidate_best_score [("Matt", speakerMatt)] [0, 1] none < 0.5 := by
    rw [hbest]; norm_num
  refine ⟨hlt, ?_⟩
  exact (identify_speaker_selection_rule [("Matt", speakerMatt)] [0, 1] 0.5 none
    (by simp)
    (by intro e he; rw [List.mem_singleton] at he; rw [he]; rfl)
    (by rw [norm2_basis_facts.2.1]; norm_num)
    (by intro e he; rw [List.mem_singleton] at he; rw [he]
        show (0 : ℝ) < norm2 [(1 : ℝ), 0]
        rw [norm2_basis_facts.1]; norm_num)
    (by norm_num)).2.1 hlt

/-! ## Claim C4: order independence of the rebuild -/

theorem vecAdd_comm : ∀ xs ys : List ℝ, vecAdd xs ys = vecAdd ys xs := by
  intro xs
  induction xs with
  | nil => intro ys; cases ys <;> rfl
  | cons a t ih =>
    intro ys
    cases ys with
    | nil => rfl
    | cons b u =>
      show (a + b) :: vecAdd t u = (b + a) :: vecAdd u t
      rw [add_comm, ih u]

theorem vecAdd_left_comm : ∀ xs ys zs : List ℝ,
    vecAdd xs (vecAdd ys zs) = vecAdd ys (vecAdd xs zs) := by
  intro xs
  induction xs with
  | nil => intro ys zs; simp [vecAdd]
  | cons a t ih =>
    intro ys zs
    cases ys with
    | nil => simp [vecAdd]
    | cons b u =>
      cases zs with
      | nil => simp [vecAdd]
      | cons c w =>
        show (a + (b + c)) :: vecAdd t (vecAdd u w) = (b + (a + c)) :: vecAdd u (vecAdd t w)
        rw [add_left_comm, ih u w]

theorem vecSum_cons (v : List ℝ) (t : List (List ℝ)) :
    vecSum (v :: t) = if t.isEmpty then v else vecAdd v (vecSum t) := by
  cases t with
  | nil => rfl
  | cons w rest => rfl

theorem perm_isEmpty_eq {α : Type} {l₁ l₂ : List α} (h : l₁.Perm l₂) :
    l₁.isEmpty = l₂.isEmpty := by
  cases l₁ with
  | nil =>
    rw [List.Perm.eq_nil h.symm]
  | cons a t =>
    cases l₂ with
    | nil => exact absurd (List.Perm.eq_nil h) (by simp)
    | cons b u => rfl

theorem vecSum_perm {l₁ l₂ : List (List ℝ)} (h : l₁.Perm l₂) : vecSum l₁ = vecSum l₂ := by
  induction h with
  | nil => rfl
  | @cons x t₁ t₂ ht ih =>
    rw [vecSum_cons, vecSum_cons, ih, perm_isEmpty_eq ht]
  | swap x y l =>
    cases l with
    | nil =>
      show vecAdd y x = vecAdd x y
      exact vecAdd_comm y x
    | cons w rest =>
      show vecAdd y (vecAdd x (vecSum (w :: rest))) = vecAdd x (vecAdd y (vecSum (w :: rest)))
      exact vecAdd_left_comm y x _
  | trans h₁ h₂ ih₁ ih₂ => exact ih₁.trans ih₂

theorem meanVec_perm {l₁ l₂ : List (List ℝ)} (h : l₁.Perm l₂) : meanVec l₁ = meanVec l₂ := by
  unfold meanVec
  rw [vecSum_perm h, h.length_eq]

theorem group_vectors_perm {rows₁ rows₂ : List SampleRow} (h : rows₁.Perm rows₂)
    (k : ℤ × String × String) : (group_vectors rows₁ k).Perm (group_vectors rows₂ k) := by
  unfold group_vectors live_rows group_rows
  exact List.Perm.map _ (List.Perm.filter _ (List.Perm.filter _ h))

/-- Claim C4 (amended): under any permutation of the stored samples the
rebuild returns the same summary counters and, per group, the same centroid
vector and sample count; and the rebuild of an empty samples table returns
the zero summary and writes no centroid. The sample-date history and the
representative sample file of a rebuilt centroid row do remain
insertion-order dependent, so the full rows are not byte-for-byte equal. -/
theorem rebuild_centroids_order_independence :
    (∀ rows₁ rows₂ : List SampleRow, rows₁.Perm rows₂ →
      (rebuild_centroids_from_samples rows₁).1 = (rebuild_centroids_from_samples rows₂).1 ∧
      ∀ k, ((rebuild_centroids_from_samples rows₁).2 k).map
            (fun c => (c.centroid, c.sample_count)) =
          ((rebuild_centroids_from_samples rows₂).2 k).map
            (fun c => (c.centroid, c.sample_count))) ∧
    ((rebuild_centroids_from_samples []).1 = ⟨0, 0, 0⟩ ∧
      ∀ k, (rebuild_centroids_from_samples []).2 k = none) := by
  constructor
  · intro rows₁ rows₂ h
    have hkeys : ((rows₁.map rowKey).dedup).Perm ((rows₂.map rowKey).dedup) :=
      (h.map rowKey).dedup
    have hvec : ∀ k, (group_vectors rows₁ k).Perm (group_vectors rows₂ k) :=
      group_vectors_perm h
    constructor
    · have hfil : ((rows₁.map rowKey).dedup.filter
          (fun k => !(group_vectors rows₁ k).isEmpty)).length =
          ((rows₂.map rowKey).dedup.filter
            (fun k => !(group_vectors rows₂ k).isEmpty)).length := by
        have hcong : ∀ x ∈ (rows₁.map rowKey).dedup,
            (!(group_vectors rows₁ x).isEmpty) = (!(group_vectors rows₂ x).isEmpty) := by
          intro x _
          rw [perm_isEmpty_eq (hvec x)]
        rw [List.filter_congr hcong]
        exact (hkeys.filter _).length_eq
      unfold rebuild_centroids_from_samples
      show ({ sample_rows := rows₁.length,
              group_count := (rows₁.map rowKey).dedup.length,
              centroids_written := ((rows₁.map rowKey).dedup.filter
                (fun k => !(group_vectors rows₁ k).isEmpty)).length } : RebuildSummary) =
          { sample_rows := rows₂.length,
            group_count := (rows₂.map rowKey).dedup.length,
            centroids_written := ((rows₂.map rowKey).dedup.filter
              (fun k => !(group_vectors rows₂ k).isEmpty)).length }
      rw [h.length_eq, hkeys.length_eq, hfil]
    · intro k
      show (group_centroid rows₁ k).map (fun c => (c.centroid, c.sample_count)) =
        (group_centroid rows₂ k).map (fun c => (c.centroid, c.sample_count))
      unfold group_centroid
      have hie : (group_vectors rows₁ k).isEmpty = (group_vectors rows₂ k).isEmpty :=
        perm_isEmpty_eq (hvec k)
      by_cases hgi : (group_vectors rows₁ k).isEmpty = true
      · rw [if_pos hgi, if_pos (hie ▸ hgi)]
      · rw [if_neg hgi, if_neg (fun hh => hgi (hie.symm ▸ hh))]
        show some (meanVec (group_vectors rows₁ k), (group_vectors rows₁ k).length) =
          some (meanVec (group_vectors rows₂ k), (group_vectors rows₂ k).length)
        rw [meanVec_perm (hvec k), (hvec k).length_eq]
  · constructor
    · rfl
    · intro k
      rfl

/-- Concrete sample rows for the C4 counterexample and witness. -/
def sampleRowA : SampleRow :=
  { model_id := 1, speaker_name := "A", sample_type := "speaker", sample_date := some 100,
    file_path := none, blob := [1], embedding_dim := 1 }

/-- Second sample of the same group with a different date and vector. -/
def sampleRowB : SampleRow :=
  { sampleRowA with sample_date := some 200, blob := [3] }

/-- Counterexample to C4 as stated: swapping the insertion order of two
dated samples of one speaker permutes the stored sample-date history of the
rebuilt centroid row, so the rebuilt rows are not byte-for-byte identical. -/
theorem rebuild_centroids_sample_dates_order_dependent :
    ([sampleRowA, sampleRowB] : List SampleRow).Perm [sampleRowB, sampleRowA] ∧
    ((rebuild_centroids_from_samples [sampleRowA, sampleRowB]).2 (1, "A", "speaker")).map
        (fun c => c.sample_dates) = some [100, 200] ∧
    ((rebuild_centroids_from_samples [sampleRowB, sampleRowA]).2 (1, "A", "speaker")).map
        (fun c => c.sample_dates) = some [200, 100] ∧
    (some [(100 : ℤ), 200] ≠ some [(200 : ℤ), 100]) := by
  refine ⟨List.Perm.swap sampleRowB sampleRowA [], ?_, ?_, by decide⟩ <;> decide

/-- Witness for the amended C4 at a concrete input: the two-row table and
its swap yield equal summaries, centroid vectors and sample counts. -/
theorem rebuild_centroids_order_independence_witness :
    (rebuild_centroids_from_samples [sampleRowA, sampleRowB]).1 =
      (rebuild_centroids_from_samples [sampleRowB, sampleRowA]).1 ∧
    ∀ k, ((rebuild_centroids_from_samples [sampleRowA, sampleRowB]).2 k).map
        (fun c => (c.centroid, c.sample_count)) =
      ((rebuild_centroids_from_samples [sampleRowB, sampleRowA]).2 k).map
        (fun c => (c.centroid, c.sample_count)) :=
  rebuild_centroids_order_independence.1 [sampleRowA, sampleRowB] [sampleRowB, sampleRowA]
    (List.Perm.swap sampleRowB sampleRowA [])

/-! ## Claim C5: idempotent sample upsert -/

theorem upsert_filter_length_pos (tbl : List DBSample) (p : ProvKey) (v : List ℝ)
    (d : Option ℤ) (h : tbl.any (fun r => r.key = sample_key p) = true) :
    ((upsert_sample_embedding tbl p v d).filter (fun r => r.key = sample_key p)).length =
      (tbl.filter (fun r => r.key = sample_key p)).length := by
  unfold upsert_sample_embedding
  rw [if_pos h, List.filter_map]
  rw [List.length_map]
  congr 1
  apply List.filter_congr
  intro r _
  by_cases hk : r.key = sample_key p
  · simp [Function.comp, hk]
  · simp [Function.comp, hk]

theorem length_filter_singleton_pos {α : Type} (p : α → Bool) (a : α) (h : p a = true) :
    (List.filter p [a]).length = 1 := by
  rw [List.filter_cons_of_pos h]
  rfl

theorem upsert_filter_length_neg (tbl : List DBSample) (p : ProvKey) (v : List ℝ)
    (d : Option ℤ) (h : tbl.any (fun r => r.key = sample_key p) = false) :
    ((upsert_sample_embedding tbl p v d).filter (fun r => r.key = sample_key p)).length = 1 := by
  unfold upsert_sample_embedding
  rw [if_neg (by rw [h]; exact Bool.false_ne_true), List.filter_append]
  have hnil : tbl.filter (fun r => r.key = sample_key p) = [] := by
    rw [List.filter_eq_nil_iff]
    intro r hr hk
    have hc : tbl.any (fun r => r.key = sample_key p) = true :=
      List.any_eq_true.mpr ⟨r, hr, hk⟩
    rw [h] at hc
    cases hc
  rw [hnil, List.nil_append]
  exact length_filter_singleton_pos _ _ (decide_eq_true rfl)

theorem upsert_mem_key_fields (tbl : List DBSample) (p : ProvKey) (v : List ℝ)
    (d : Option ℤ) :
    ∀ r ∈ upsert_sample_embedding tbl p v d, r.key = sample_key p →
      r.embedding = v ∧ r.embedding_norm = norm2 v ∧ r.sample_date = d := by
  intro r hr hk
  unfold upsert_sample_embedding at hr
  by_cases h : tbl.any (fun r => r.key = sample_key p) = true
  · rw [if_pos h] at hr
    rcases List.mem_map.mp hr with ⟨r₀, _, heq⟩
    by_cases hk₀ : r₀.key = sample_key p
    · rw [if_pos hk₀] at heq
      rw [← heq]
      exact ⟨rfl, rfl, rfl⟩
    · rw [if_neg hk₀] at heq
      exact absurd (heq ▸ hk) hk₀
  · rw [if_neg h] at hr
    rcases List.mem_append.mp hr with h1 | h1
    · exact absurd (List.any_eq_true.mpr ⟨r, h1, by simpa using hk⟩) h
    · rcases List.mem_singleton.mp h1 with rfl
      exact ⟨rfl, rfl, rfl⟩

/-- Claim C5: submitting the same provenance twice leaves exactly one sample
row under that deterministic key, and that row stores the second
submission's vector and norm. -/
theorem upsert_sample_embedding_idempotent (tbl : List DBSample) (p : ProvKey)
    (v₁ v₂ : List ℝ) (d₁ d₂ : Option ℤ)
    (huniq : (tbl.filter (fun r => r.key = sample_key p)).length ≤ 1) :
    ((upsert_sample_embedding (upsert_sample_embedding tbl p v₁ d₁) p v₂ d₂).filter
        (fun r => r.key = sample_key p)).length = 1 ∧
    ∀ r ∈ upsert_sample_embedding (upsert_sample_embedding tbl p v₁ d₁) p v₂ d₂,
      r.key = sample_key p → r.embedding = v₂ ∧ r.embedding_norm = norm2 v₂ := by
  have h1len : ((upsert_sample_embedding tbl p v₁ d₁).filter
      (fun r => r.key = sample_key p)).length = 1 := by
    cases h : tbl.any (fun r => r.key = sample_key p) with
    | false => exact upsert_filter_length_neg tbl p v₁ d₁ h
    | true =>
      rw [upsert_filter_length_pos tbl p v₁ d₁ h]
      rcases List.any_eq_true.mp h with ⟨x, hx, hxk⟩
      have hpos : 0 < (tbl.filter (fun r => r.key = sample_key p)).length := by
        rw [List.length_pos]
        intro hnil
        have hmem : x ∈ tbl.filter (fun r => r.key = sample_key p) :=
          List.mem_filter.mpr ⟨hx, hxk⟩
        rw [hnil] at hmem
        cases hmem
      omega
  have hany : (upsert_sample_embedding tbl p v₁ d₁).any
      (fun r => r.key = sample_key p) = true := by
    have hne : (upsert_sample_embedding tbl p v₁ d₁).filter
        (fun r => r.key = sample_key p) ≠ [] := by
      intro hnil
      rw [hnil] at h1len
      cases h1len
    obtain ⟨x, hx⟩ := List.exists_mem_of_ne_nil _ hne
    have hx' := List.mem_filter.mp hx
    exact List.any_eq_true.mpr ⟨x, hx'.1, hx'.2⟩
  constructor
  · rw [upsert_filter_length_pos _ p v₂ d₂ hany, h1len]
  · intro r hr hk
    exact ⟨(upsert_mem_key_fields _ p v₂ d₂ r hr hk).1,
      (upsert_mem_key_fields _ p v₂ d₂ r hr hk).2.1⟩

/-- Concrete provenance for the C5 witness. -/
def provKeyW : ProvKey :=
  { backend := "pyannote", speaker_name := "Matt", sample_type := "speaker",
    file_path := some "a.wav", episode_id := some 3, segment_idx := none,
    start_time := some (1 / 2), end_time := some 2, voice_sample_id := none }

/-- Witness for C5 at a concrete input: two submissions into an empty table
leave one row holding the second vector. -/
theorem upsert_sample_embedding_idempotent_witness :
    (([] : List DBSample).filter (fun r => r.key = sample_key provKeyW)).length ≤ 1 ∧
    ((upsert_sample_embedding (upsert_sample_embedding [] provKeyW [1] none)
        provKeyW [2] none).filter (fun r => r.key = sample_key provKeyW)).length = 1 ∧
    ∀ r ∈ upsert_sample_embedding (upsert_sample_embedding [] provKeyW [1] none)
        provKeyW [2] none,
      r.key = sample_key provKeyW → r.embedding = [2] ∧ r.embedding_norm = norm2 [2] :=
  ⟨by simp,
    (upsert_sample_embedding_idempotent [] provKeyW [1] [2] none none (by simp)).1,
    (upsert_sample_embedding_idempotent [] provKeyW [1] [2] none none (by simp)).2⟩

/-! ## Claim C9: import of missing centroids only -/

theorem find?_filter_of_imp {α : Type} (p q : α → Bool)
    (himp : ∀ x, p x = true → q x = true) :
    ∀ l : List α, (l.filter q).find? p = l.find? p := by
  intro l
  induction l with
  | nil => rfl
  | cons a t ih =>
    by_cases hq : q a = true
    · rw [List.filter_cons_of_pos hq, List.find?_cons, List.find?_cons]
      cases hp : p a
      · exact ih
      · rfl
    · have hp : p a = false := by
        cases hpa : p a
        · rfl
        · exact absurd (himp a hpa) hq
      rw [List.filter_cons_of_neg hq, ih, List.find?_cons, hp]

/-- Claim C9 (amended): on a store whose entries all carry a non-empty
vector and a non-empty sample type (the entries the rewrite preserves
verbatim), and for an imported map with the same property,
`import_centroids_missing_only` returns the count of imported speakers not
already present, leaves every already-present speaker's entry unchanged,
and gives a not-present speaker exactly the imported entry. -/
theorem import_centroids_missing_only_frame (store emb : List (String × CentroidEntry))
    (hstore : ∀ e ∈ store,
      (e.2 : CentroidEntry).embedding ≠ [] ∧ (e.2 : CentroidEntry).sample_type ≠ "")
    (hemb : ∀ e ∈ emb,
      (e.2 : CentroidEntry).embedding ≠ [] ∧ (e.2 : CentroidEntry).sample_type ≠ "") :
    (import_centroids_missing_only store emb).1 =
      (emb.filter (fun e => !(store.any (fun s => s.1 = e.1)))).length ∧
    (∀ k, store.any (fun s => s.1 = k) = true →
      alist_find (import_centroids_missing_only store emb).2 k = alist_find store k) ∧
    (∀ k, store.any (fun s => s.1 = k) = false →
      alist_find (import_centroids_missing_only store emb).2 k = alist_find emb k) := by
  by_cases hT : (emb.filter (fun e => !(store.any (fun s => s.1 = e.1)))).isEmpty = true
  · have hTnil : emb.filter (fun e => !(store.any (fun s => s.1 = e.1))) = [] :=
      List.isEmpty_iff.mp hT
    have hres : import_centroids_missing_only store emb = (0, store) := by
      unfold import_centroids_missing_only
      rw [if_pos hT]
    refine ⟨by rw [hres, hTnil]; rfl, fun k _ => by rw [hres], ?_⟩
    intro k hk
    rw [hres]
    have hstore_none : alist_find store k = none := by
      unfold alist_find
      rw [List.find?_eq_none.mpr ?_]
      · rfl
      · intro x hx hxk
        have hc : store.any (fun s => s.1 = k) = true := List.any_eq_true.mpr ⟨x, hx, hxk⟩
        rw [hk] at hc
        cases hc
    have hemb_none : alist_find emb k = none := by
      unfold alist_find
      rw [List.find?_eq_none.mpr ?_]
      · rfl
      · intro x hx hxk
        have hxkey : x.1 = k := by simpa using hxk
        have hpred : (!(store.any (fun s => s.1 = x.1))) = true := by
          rw [hxkey, hk]
          rfl
        have hmem : x ∈ emb.filter (fun e => !(store.any (fun s => s.1 = e.1))) :=
          List.mem_filter.mpr ⟨hx, hpred⟩
        rw [hTnil] at hmem
        cases hmem
    rw [hstore_none, hemb_none]
  · have hrepl : replace_centroids
        (store ++ emb.filter (fun e => !(store.any (fun s => s.1 = e.1)))) =
        store ++ emb.filter (fun e => !(store.any (fun s => s.1 = e.1))) := by
      unfold replace_centroids
      have hall : ∀ e ∈ store ++ emb.filter (fun e => !(store.any (fun s => s.1 = e.1))),
          (e.2 : CentroidEntry).embedding ≠ [] ∧ (e.2 : CentroidEntry).sample_type ≠ "" := by
        intro e he
        rcases List.mem_append.mp he with h1 | h1
        · exact hstore e h1
        · exact hemb e (List.mem_filter.mp h1).1
      rw [List.filter_eq_self.mpr ?_]
      · have hid : ∀ e ∈ store ++ emb.filter (fun e => !(store.any (fun s => s.1 = e.1))),
            (fun e => ((e : String × CentroidEntry).1,
              { e.2 with sample_type := normalize_sample_type e.2.sample_type })) e = id e := by
          intro e he
          show (e.1, { e.2 with sample_type := normalize_sample_type e.2.sample_type }) = e
          unfold normalize_sample_type
          rw [if_neg (hall e he).2]
        rw [List.map_congr_left hid, List.map_id]
      · intro e he
        have hne : (e.2 : CentroidEntry).embedding.isEmpty = false := by
          cases hie : (e.2 : CentroidEntry).embedding.isEmpty
          · rfl
          · exact absurd (List.isEmpty_iff.mp hie) (hall e he).1
        rw [hne]
        rfl
    have hres : import_centroids_missing_only store emb =
        ((emb.filter (fun e => !(store.any (fun s => s.1 = e.1)))).length,
          store ++ emb.filter (fun e => !(store.any (fun s => s.1 = e.1)))) := by
      unfold import_centroids_missing_only
      rw [if_neg hT, hrepl]
    refine ⟨by rw [hres], ?_, ?_⟩
    · intro k hk
      rw [hres]
      unfold alist_find
      rw [List.find?_append]
      rcases List.any_eq_true.mp hk with ⟨x, hx, hxk⟩
      cases hf : store.find? (fun e => decide (e.1 = k)) with
      | none => exact absurd hxk ((List.find?_eq_none.mp hf) x hx)
      | some w => rfl
    · intro k hk
      rw [hres]
      unfold alist_find
      rw [List.find?_append]
      have hstore_none : store.find? (fun e => decide (e.1 = k)) = none := by
        rw [List.find?_eq_none]
        intro x hx hxk
        have hc : store.any (fun s => s.1 = k) = true := List.any_eq_true.mpr ⟨x, hx, hxk⟩
        rw [hk] at hc
        cases hc
      rw [hstore_none]
      have hfilter : (emb.filter (fun e => !(store.any (fun s => s.1 = e.1)))).find?
          (fun e => decide (e.1 = k)) = emb.find? (fun e => decide (e.1 = k)) := by
        apply find?_filter_of_imp
        intro x hxk
        have hxkey : x.1 = k := by simpa using hxk
        rw [hxkey, hk]
        rfl
      rw [hfilter]
      rfl

/-- Stored entry with an empty centroid vector. -/
def centroidEmptyA : CentroidEntry :=
  { embedding := [], short_name := none, sample_file := none, sample_count := 0,
    sample_dates := [], sample_type := "speaker" }

/-- Healthy imported entry. -/
def centroidB : CentroidEntry :=
  { embedding := [1], short_name := none, sample_file := none, sample_count := 1,
    sample_dates := [], sample_type := "speaker" }

/-- Healthy stored entry. -/
def centroidA1 : CentroidEntry :=
  { embedding := [2], short_name := some "A", sample_file := some "a.wav", sample_count := 1,
    sample_dates := [100], sample_type := "speaker" }

/-- Counterexample to C9 as stated: importing a brand-new speaker B into a
store whose speaker A has an empty stored vector makes the rewrite drop A,
so an already-present speaker's entry is not left unchanged. -/
theorem import_centroids_drops_empty_vector_speaker :
    alist_find [("A", centroidEmptyA)] "A" = some centroidEmptyA ∧
    alist_find (import_centroids_missing_only [("A", centroidEmptyA)] [("B", centroidB)]).2 "A"
      = none ∧
    (some centroidEmptyA ≠ (none : Option CentroidEntry)) := by
  refine ⟨by simp [alist_find], ?_, by simp⟩
  rfl

/-- Witness for the amended C9 at a concrete input: importing speaker B
into a healthy store holding speaker A preserves A and adds B. -/
theorem import_centroids_missing_only_frame_witness :
    alist_find (import_centroids_missing_only [("A", centroidA1)] [("B", centroidB)]).2 "A" =
      alist_find [("A", centroidA1)] "A" ∧
    alist_find (import_centroids_missing_only [("A", centroidA1)] [("B", centroidB)]).2 "B" =
      alist_find [("B", centroidB)] "B" := by
  have h := import_centroids_missing_only_frame [("A", centroidA1)] [("B", centroidB)]
    (by intro e he
        rcases List.mem_singleton.mp he with rfl
        exact ⟨by simp [centroidA1], by simp [centroidA1]⟩)
    (by intro e he
        rcases List.mem_singleton.mp he with rfl
        exact ⟨by simp [centroidB], by simp [centroidB]⟩)
  exact ⟨h.2.1 "A" (by rfl), h.2.2 "B" (by rfl)⟩

/-! ## Claims C7 and C10: the diarization bridge -/

theorem insert_by_duration_perm (s : DiarSeg) :
    ∀ l : List DiarSeg, (insert_by_duration s l).Perm (s :: l) := by
  intro l
  induction l with
  | nil => exact List.Perm.refl _
  | cons u rest ih =>
    unfold insert_by_duration
    by_cases h : duration u < duration s
    · rw [if_pos h]
    · rw [if_neg h]
      exact (ih.cons u).trans (List.Perm.swap s u rest)

theorem sort_by_duration_desc_perm :
    ∀ l : List DiarSeg, (sort_by_duration_desc l).Perm l := by
  intro l
  induction l with
  | nil => exact List.Perm.refl _
  | cons s rest ih =>
    exact (insert_by_duration_perm s _).trans (ih.cons s)

theorem pairwise_insert_by_duration (s : DiarSeg) :
    ∀ l : List DiarSeg,
      List.Pairwise (fun a b => duration b ≤ duration a) l →
      List.Pairwise (fun a b => duration b ≤ duration a) (insert_by_duration s l) := by
  intro l
  induction l with
  | nil => intro _; exact List.pairwise_singleton _ s
  | cons u rest ih =>
    intro hp
    rcases List.pairwise_cons.mp hp with ⟨hu, hrest⟩
    unfold insert_by_duration
    by_cases h : duration u < duration s
    · rw [if_pos h]
      apply List.pairwise_cons.mpr
      refine ⟨?_, hp⟩
      intro b hb
      rcases List.mem_cons.mp hb with rfl | hb'
      · exact le_of_lt h
      · exact le_trans (hu b hb') (le_of_lt h)
    · rw [if_neg h]
      apply List.pairwise_cons.mpr
      refine ⟨?_, ih hrest⟩
      intro b hb
      rcases List.mem_cons.mp ((insert_by_duration_perm s rest).mem_iff.mp hb) with rfl | hb'
      · exact not_lt.mp h
      · exact hu b hb'

theorem pairwise_sort_by_duration_desc :
    ∀ l : List DiarSeg,
      List.Pairwise (fun a b => duration b ≤ duration a) (sort_by_duration_desc l) := by
  intro l
  induction l with
  | nil => exact List.Pairwise.nil
  | cons s rest ih => exact pairwise_insert_by_duration s _ ih

theorem filterMap_discard {α β : Type} (c : α → Prop) [DecidablePred c] (f : α → Option β) :
    ∀ l : List α,
      (l.filterMap (fun s => if c s then none else f s)) =
        (l.filter (fun s => decide (¬ c s))).filterMap f := by
  intro l
  induction l with
  | nil => rfl
  | cons a t ih =>
    by_cases h : c a
    · rw [List.filterMap_cons, if_pos h, List.filter_cons_of_neg (by simp [h]), ih]
    · rw [List.filterMap_cons, if_neg h, List.filter_cons_of_pos (by simp [h]), List.filterMap_cons]
      cases hf : f a
      · exact ih
      · rw [ih]

/-- Claim C7: per diarization label, the turns are stably sorted by duration
descending and only the top five are considered; of those, a sub-segment is
discarded exactly when its cropped sample range is shorter than one second
(16000 samples); the surviving extracted embeddings are averaged by
arithmetic mean and passed to identify_speaker with the default threshold
and the episode date; a label with no surviving sub-segment gets no entry
in the returned mapping. -/
theorem identify_speakers_in_diarization_pipeline (lib : List (String × SpeakerData))
    (segs : List DiarSeg) (wave_len : ℤ) (extract : ℤ → ℤ → Option (List ℝ))
    (episode_date : Option ℤ) (label : String)
    (hlib : lib ≠ [])
    (hl : has_label segs label = true) :
    ((sort_by_duration_desc (label_turns segs label)).Perm (label_turns segs label)) ∧
    (List.Pairwise (fun a b => duration b ≤ duration a)
      (sort_by_duration_desc (label_turns segs label))) ∧
    (∀ a ∈ (sort_by_duration_desc (label_turns segs label)).take 5,
      ∀ b ∈ (sort_by_duration_desc (label_turns segs label)).drop 5,
        duration b ≤ duration a) ∧
    (label_embeddings extract wave_len (label_turns segs label) =
      (((sort_by_duration_desc (label_turns segs label)).take 5).filter
        (fun s => decide (¬ (end_sample s wave_len - start_sample s < 16000)))).filterMap
        (fun s => extract (start_sample s) (end_sample s wave_len))) ∧
    (label_embeddings extract wave_len (label_turns segs label) = [] →
      identify_speakers_in_diarization lib segs wave_len extract episode_date label = none) ∧
    (∀ embs, label_embeddings extract wave_len (label_turns segs label) = embs → embs ≠ [] →
      identify_speakers_in_diarization lib segs wave_len extract episode_date label =
        pyTruthyName (identify_speaker lib (meanVec embs) 0.5 episode_date).1) := by
  have hemp : lib.isEmpty = false := by
    cases lib with
    | nil => exact absurd rfl hlib
    | cons a t => rfl
  have hmain : identify_speakers_in_diarization lib segs wave_len extract episode_date label =
      pyTruthyName (identify_label lib extract wave_len episode_date
        (label_turns segs label)).1 := by
    unfold identify_speakers_in_diarization
    rw [hemp, hl]
    rfl
  have hsorted := pairwise_sort_by_duration_desc (label_turns segs label)
  refine ⟨sort_by_duration_desc_perm _, hsorted, ?_, ?_, ?_, ?_⟩
  · rw [← List.take_append_drop 5 (sort_by_duration_desc (label_turns segs label))] at hsorted
    exact (List.pairwise_append.mp hsorted).2.2
  · unfold label_embeddings
    exact filterMap_discard _ _ _
  · intro hnil
    rw [hmain]
    unfold identify_label
    rw [hnil]
    rfl
  · intro embs hembs hne
    rw [hmain]
    unfold identify_label
    rw [hembs]
    have hef : embs.isEmpty = false := by
      cases embs with
      | nil => exact absurd rfl hne
      | cons a t => rfl
    simp only [hef]
    rfl

/-- Claim C10 (amended): with return_scores, every grouped label gets
exactly one entry: the default-mode name (possibly none) together with the
recorded rounded score, and confidence 0.0 exactly when every sub-segment
was discarded; ungrouped labels get no entry; and in default mode a label
whose identification produced no match is absent. -/
theorem scores_mode_label_coverage (lib : List (String × SpeakerData))
    (segs : List DiarSeg) (wave_len : ℤ) (extract : ℤ → ℤ → Option (List ℝ))
    (episode_date : Option ℤ) (label : String)
    (hlib : lib ≠ []) :
    (has_label segs label = true →
      identify_speakers_in_diarization_scores lib segs wave_len extract episode_date label =
        some { name := pyTruthyName (identify_label lib extract wave_len episode_date
                 (label_turns segs label)).1,
               confidence := ((identify_label lib extract wave_len episode_date
                 (label_turns segs label)).2).getD 0 }) ∧
    (has_label segs label = true →
      label_embeddings extract wave_len (label_turns segs label) = [] →
      identify_speakers_in_diarization_scores lib segs wave_len extract episode_date label =
        some { name := none, confidence := 0 }) ∧
    (has_label segs label = false →
      identify_speakers_in_diarization_scores lib segs wave_len extract episode_date label =
        none) ∧
    ((identify_label lib extract wave_len episode_date (label_turns segs label)).1 = none →
      identify_speakers_in_diarization lib segs wave_len extract episode_date label = none) := by
  have hemp : lib.isEmpty = false := by
    cases lib with
    | nil => exact absurd rfl hlib
    | cons a t => rfl
  have hwith : ∀ hl : has_label segs label = true,
      identify_speakers_in_diarization_scores lib segs wave_len extract episode_date label =
        some { name := pyTruthyName (identify_label lib extract wave_len episode_date
                 (label_turns segs label)).1,
               confidence := ((identify_label lib extract wave_len episode_date
                 (label_turns segs label)).2).getD 0 } := by
    intro hl
    unfold identify_speakers_in_diarization_scores
    rw [hemp, hl]
    rfl
  refine ⟨hwith, ?_, ?_, ?_⟩
  · intro hl hnil
    rw [hwith hl]
    unfold identify_label
    rw [hnil]
    rfl
  · intro hl
    unfold identify_speakers_in_diarization_scores
    rw [hemp, hl]
    rfl
  · intro hnone
    unfold identify_speakers_in_diarization
    rw [hemp]
    cases hl : has_label segs label
    · rfl
    · rw [hnone]
      rfl

/-- Candidate whose centroid scores 0.28 against the unit query. -/
def speakerFar : SpeakerData :=
  { embedding := [7, 24], short_name := "A", sample_file := "a.wav",
    sample_count := 1, sample_dates := [] }

/-- External extractor stub returning the unit query for every crop. -/
def extractUnit : ℤ → ℤ → Option (List ℝ) := fun _ _ => some [1, 0]

theorem start_sample_zero_two : start_sample ⟨0, 2, some "S0"⟩ = 0 := by
  unfold start_sample pyInt
  norm_num

theorem end_sample_zero_two : end_sample ⟨0, 2, some "S0"⟩ 32000 = 32000 := by
  unfold end_sample pyInt
  norm_num

theorem label_turns_single :
    label_turns [⟨0, 2, some "S0"⟩] "S0" = [⟨0, 2, some "S0"⟩] := rfl

theorem label_embeddings_single :
    label_embeddings extractUnit 32000 [⟨0, 2, some "S0"⟩] = [[1, 0]] := by
  unfold label_embeddings
  show List.filterMap _ ((sort_by_duration_desc [⟨0, 2, some "S0"⟩]).take 5) = _
  rw [show sort_by_duration_desc [⟨0, 2, some "S0"⟩] = [⟨0, 2, some "S0"⟩] from rfl]
  show List.filterMap _ [(⟨0, 2, some "S0"⟩ : DiarSeg)] = _
  simp only [List.filterMap_cons, List.filterMap_nil, start_sample_zero_two,
    end_sample_zero_two]
  rw [if_neg (by norm_num : ¬ ((32000 : ℤ) - 0 < 16000))]
  rfl

theorem meanVec_single_unit : meanVec [[(1 : ℝ), 0]] = [(1 : ℝ), 0] := by
  unfold meanVec vecSum
  simp

theorem weighted_score_far : weighted_score [(1 : ℝ), 0] none speakerFar = 7 / 25 := by
  show dotList [(1 : ℝ), 0] [(7 : ℝ), 24] /
      (norm2 [(1 : ℝ), 0] * norm2 [(7 : ℝ), 24]) * temporal_weight [] none = 7 / 25
  have hdot : dotList [(1 : ℝ), 0] [(7 : ℝ), 24] = 7 := by
    unfold dotList
    simp
  have hn : norm2 [(7 : ℝ), 24] = 25 := by
    rw [norm2_pair, show (7 : ℝ) * 7 + 24 * 24 = 25 ^ 2 by norm_num,
      Real.sqrt_sq (by norm_num : (0 : ℝ) ≤ 25)]
  rw [hdot, norm2_basis_facts.1, hn]
  show (7 : ℝ) / (1 * 25) * 1 = 7 / 25
  norm_num

theorem identify_speaker_far :
    identify_speaker [("A", speakerFar)] [(1 : ℝ), 0] 0.5 none = (none, 7 / 25) := by
  have hfold : ([("A", speakerFar)] : List (String × SpeakerData)).foldl
      (identify_step [(1 : ℝ), 0] none) ((none : Option String), (-1 : ℝ)) =
      (some "A", 7 / 25) := by
    show identify_step [(1 : ℝ), 0] none ((none : Option String), (-1 : ℝ)) ("A", speakerFar)
        = (some "A", 7 / 25)
    unfold identify_step
    simp only [weighted_score_far]
    norm_num [speakerFar]
  unfold identify_speaker
  simp only [List.isEmpty_cons, hfold]
  rw [if_neg (by norm_num : ¬ (0.5 : ℝ) ≤ ((some "A" : Option String), (7 / 25 : ℝ)).2)]
  rw [show max (0 : ℝ) (((some "A" : Option String), (7 / 25 : ℝ)).2) = 7 / 25 from
    max_eq_right (by norm_num)]
  rfl

theorem round3_seven_twentyfifths : round3 ((7 : ℝ) / 25) = 7 / 25 := by
  unfold round3 pyRound
  rw [show (7 : ℝ) / 25 * 1000 = ((280 : ℤ) : ℝ) by norm_num]
  rw [Int.fract_intCast, round_intCast]
  rw [if_neg (by norm_num : ¬ (0 : ℝ) = 1 / 2)]
  norm_num

theorem identify_label_far :
    identify_label [("A", speakerFar)] extractUnit 32000 none [⟨0, 2, some "S0"⟩] =
      (none, some (7 / 25)) := by
  unfold identify_label
  rw [label_embeddings_single]
  simp only [List.isEmpty_cons]
  rw [meanVec_single_unit, identify_speaker_far]
  simp only [round3_seven_twentyfifths]
  rfl

/-- Counterexample to C10 as stated: a grouped label whose only match falls
below the threshold receives the entry
`{name := none, confidence := 0.28}` — the rounded best score, not `0.0`. -/
theorem scores_mode_below_threshold_confidence :
    identify_speakers_in_diarization_scores [("A", speakerFar)] [⟨0, 2, some "S0"⟩] 32000
        extractUnit none "S0" =
      some { name := none, confidence := 7 / 25 } ∧
    ((7 : ℝ) / 25 ≠ 0) := by
  refine ⟨?_, by norm_num⟩
  unfold identify_speakers_in_diarization_scores
  simp only [List.isEmpty_cons]
  rw [show has_label [⟨0, 2, some "S0"⟩] "S0" = true from rfl]
  rw [label_turns_single]
  simp only [identify_label_far]
  rfl

/-- Witness for C7 at a concrete input: a library with one speaker and one
two-second turn of label S0. -/
theorem identify_speakers_in_diarization_pipeline_witness :
    has_label [⟨0, 2, some "S0"⟩] "S0" = true ∧
    ((sort_by_duration_desc (label_turns [⟨0, 2, some "S0"⟩] "S0")).Perm
      (label_turns [⟨0, 2, some "S0"⟩] "S0")) ∧
    (label_embeddings extractUnit 32000 (label_turns [⟨0, 2, some "S0"⟩] "S0") = [] →
      identify_speakers_in_diarization [("A", speakerFar)] [⟨0, 2, some "S0"⟩] 32000
        extractUnit none "S0" = none) := by
  have h := identify_speakers_in_diarization_pipeline [("A", speakerFar)] [⟨0, 2, some "S0"⟩]
    32000 extractUnit none "S0" (by simp) rfl
  exact ⟨rfl, h.1, h.2.2.2.2.1⟩

/-- Witness for the amended C10 at a concrete input: the grouped label of
the below-threshold example receives exactly the entry built from its
identification outcome. -/
theorem scores_mode_label_coverage_witness :
    identify_speakers_in_diarization_scores [("A", speakerFar)] [⟨0, 2, some "S0"⟩] 32000
        extractUnit none "S0" =
      some { name := pyTruthyName (identify_label [("A", speakerFar)] extractUnit 32000 none
               (label_turns [⟨0, 2, some "S0"⟩] "S0")).1,
             confidence := ((identify_label [("A", speakerFar)] extractUnit 32000 none
               (label_turns [⟨0, 2, some "S0"⟩] "S0")).2).getD 0 } :=
  (scores_mode_label_coverage [("A", speakerFar)] [⟨0, 2, some "S0"⟩] 32000 extractUnit none
    "S0" (by simp)).1 rfl

end
